import Mathlib

/-!
Verification of the Equivalence_Checker repository (C vs Rust semantic
equivalence checker) against its natural-language specification.

The first part embeds the data model of src/types/mod.rs and the code of
src/equivalence/mod.rs, src/main.rs (parse_bounds) and src/validator/mod.rs.
Rust i64 becomes Int (ranges are checked explicitly where the code checks
them), u32 becomes Nat, f64 appears only as the exact constant 0.0 and is
modelled as Rat, and anyhow::Result becomes Except String.

The second part models, from the specification text, the symbolic value
model (expressions, substitute, normalize) and the solver-level notions
(satisfiability over the bounded integer box, coverage, divergence
queries), which have no implementation under src/.
-/

namespace EqChecker

/-- From src/types/mod.rs: bound for one input variable (name, min, max). -/
structure InputBound where
  name : String
  min : Int
  max : Int
deriving DecidableEq, Repr

/-- From src/types/mod.rs: everything the user provides as input. -/
structure AnalysisConfig where
  c_file : String
  rust_file : String
  function_name : String
  bounds : List InputBound
  max_paths : Nat
  timeout : Nat
deriving DecidableEq, Repr

/-- From src/types/mod.rs: which program a path belongs to. -/
inductive ProgramKind
  | C
  | Rust
deriving DecidableEq, Repr

/-- From src/types/mod.rs: a file operation that was logged. -/
structure FileOperation where
  op_type : String
  filename : String
  data : Option String
deriving DecidableEq, Repr

/-- From src/types/mod.rs: complete symbolic path summary for one execution
path, as produced by the symbolic-execution step.  All symbolic payloads are
plain strings in the source. -/
structure PathSummary where
  id : String
  program : ProgramKind
  path_condition : List String
  return_expr : String
  stdout_log : List String
  stderr_log : List String
  global_writes : List (String × String)
  file_ops : List FileOperation
deriving DecidableEq, Repr

/-- From src/symbolic/mod.rs: the two per-program path summary collections. -/
structure SymbolicSummaries where
  c_summaries : List PathSummary
  rust_summaries : List PathSummary
deriving DecidableEq, Repr

/-- From src/types/mod.rs: the verdict. -/
inductive Verdict
  | Equivalent
  | NotEquivalent
  | Unknown
deriving DecidableEq, Repr

/-- From src/types/mod.rs: what a program does for specific inputs. -/
structure BehaviorSnapshot where
  return_value : String
  stdout : List String
  stderr : List String
  globals : List (String × String)
deriving DecidableEq, Repr

/-- From src/types/mod.rs: kind of difference. -/
inductive DifferenceKind
  | ReturnValue
  | Stdout
  | Stderr
  | GlobalVariable (name : String)
  | FileOperation
deriving DecidableEq, Repr

/-- From src/types/mod.rs: one specific difference found. -/
structure Difference where
  kind : DifferenceKind
  c_value : String
  rust_value : String
deriving DecidableEq, Repr

/-- From src/types/mod.rs: a concrete counterexample. -/
structure Counterexample where
  inputs : List (String × Int)
  c_behavior : BehaviorSnapshot
  rust_behavior : BehaviorSnapshot
  differences : List Difference
deriving DecidableEq, Repr

/-- From src/types/mod.rs: final result of the equivalence check.
`time_taken` is f64 in the source; the only value the program ever puts
there is the exact constant 0.0, modelled in Rat. -/
structure EquivalenceResult where
  verdict : Verdict
  paths_compared : Nat
  counterexample : Option Counterexample
  time_taken : Rat
deriving DecidableEq, Repr

/-- From src/types/mod.rs: a function signature found during validation. -/
structure FunctionSignature where
  name : String
  params : List String
  return_type : String
deriving DecidableEq, Repr

/-- From src/types/mod.rs: result of validating input files. -/
structure ValidationResult where
  success : Bool
  c_signature : Option FunctionSignature
  rust_signature : Option FunctionSignature
  errors : List String
deriving DecidableEq, Repr

/-- From src/types/mod.rs: the error enum of the tool.  Note that it has
no path-overlap variant of any kind. -/
inductive CheckerError
  | ValidationError (msg : String)
  | CompilationError (msg : String)
  | NormalizationError (msg : String)
  | InstrumentationError (msg : String)
  | SymbolicExecutionError (msg : String)
  | EquivalenceError (msg : String)
  | IoError (msg : String)
deriving DecidableEq, Repr

/-- From src/equivalence/mod.rs (marked SKELETON in the source): the body
ignores both arguments and returns a fixed result. -/
def check (_config : AnalysisConfig) (_summaries : SymbolicSummaries) :
    Except String EquivalenceResult :=
  .ok { verdict := .Unknown
        paths_compared := 0
        counterexample := none
        time_taken := 0 }

/-- Rust str::split on a single separator character, over the character
list: returns the (always nonempty) list of groups between separators. -/
def splitOnChar (sep : Char) : List Char → List (List Char)
  | [] => [[]]
  | c :: cs =>
    let r := splitOnChar sep cs
    if c = sep then [] :: r
    else
      match r with
      | [] => [[c]]
      | g :: gs => (c :: g) :: gs

/-- Rust str::split on a single separator character, as strings. -/
def splitStr (sep : Char) (s : String) : List String :=
  (splitOnChar sep s.toList).map (fun cs => String.mk cs)

/-- From src/main.rs parse_bounds: Rust parse::<i64> on one field.
Accepts an optional leading sign followed by one or more ASCII digits,
and rejects values outside the i64 range. -/
def parseI64 (s : String) : Option Int :=
  match s.toList with
  | [] => none
  | c :: cs =>
    let signDigits : Int × List Char :=
      if c = '-' then (-1, cs)
      else if c = '+' then (1, cs)
      else (1, c :: cs)
    let sign := signDigits.1
    let digits := signDigits.2
    if digits.isEmpty then none
    else if digits.all (fun d => d.isDigit) then
      let n : Nat := digits.foldl (fun acc d => acc * 10 + (d.toNat - 48)) 0
      let v : Int := sign * (n : Int)
      if -(2 ^ 63) ≤ v ∧ v ≤ 2 ^ 63 - 1 then some v else none
    else none

/-- From src/main.rs parse_bounds: parse one comma-separated entry.  The
entry must split on the colon into exactly three fields; name is taken
verbatim, min and max are parsed as i64.  (The Rust error messages carry
more formatting; only success or failure is load-bearing here.) -/
def parseBoundPart (part : String) : Except String InputBound :=
  match splitStr ':' part with
  | [nm, minS, maxS] =>
    match parseI64 minS, parseI64 maxS with
    | some mn, some mx => .ok { name := nm, min := mn, max := mx }
    | _, _ => .error "invalid integer in bounds"
  | _ => .error "Invalid bounds format. Use name:min:max"

/-- From src/main.rs parse_bounds: the loop over comma-separated parts,
returning at the first failing part (the Rust body uses the question-mark
operator inside the loop). -/
def parse_bounds_list : List String → Except String (List InputBound)
  | [] => .ok []
  | p :: rest =>
    match parseBoundPart p with
    | .error e => .error e
    | .ok b =>
      match parse_bounds_list rest with
      | .error e => .error e
      | .ok bs => .ok (b :: bs)

/-- From src/main.rs: parse a bounds string such as x:0:100,y:0:100. -/
def parse_bounds (bounds_str : String) : Except String (List InputBound) :=
  parse_bounds_list (splitStr ',' bounds_str)

/-- The filesystem and subprocess effects consumed by src/validator/mod.rs,
as oracles: whether a path exists, the outcome of the C and Rust
well-formedness subprocess checks, and the outcome of the signature search
in each file.  The control flow of validate itself is embedded exactly. -/
structure ValEnv where
  fileExists : String → Bool
  cSyntaxCheck : String → Except String Unit
  rustSyntaxCheck : String → Except String Unit
  findCFunction : String → String → Except String FunctionSignature
  findRustFunction : String → String → Except String FunctionSignature

/-- From src/validator/mod.rs validate: checks C file existence (early
return), Rust file existence (early return), both well-formedness checks
(errors accumulated, early return if any), then both signature lookups and
the parameter-count comparison, accumulating every failure into the
`errors` list and never returning an Err.  Message texts are abbreviated
relative to the Rust format strings. -/
def validate (env : ValEnv) (config : AnalysisConfig) :
    Except String ValidationResult :=
  if env.fileExists config.c_file = false then
    .ok { success := false, c_signature := none, rust_signature := none
          errors := ["C file not found: " ++ config.c_file] }
  else if env.fileExists config.rust_file = false then
    .ok { success := false, c_signature := none, rust_signature := none
          errors := ["Rust file not found: " ++ config.rust_file] }
  else
    let errs0 : List String :=
      (match env.cSyntaxCheck config.c_file with
       | .error e => ["C syntax error: " ++ e]
       | .ok _ => []) ++
      (match env.rustSyntaxCheck config.rust_file with
       | .error e => ["Rust syntax error: " ++ e]
       | .ok _ => [])
    if errs0.isEmpty = false then
      .ok { success := false, c_signature := none, rust_signature := none
            errors := errs0 }
    else
      let cRes := env.findCFunction config.c_file config.function_name
      let c_sig : Option FunctionSignature :=
        match cRes with | .ok sig => some sig | .error _ => none
      let errs1 := errs0 ++
        (match cRes with
         | .ok _ => []
         | .error e => ["C function " ++ config.function_name ++ " not found: " ++ e])
      let rRes := env.findRustFunction config.rust_file config.function_name
      let rust_sig : Option FunctionSignature :=
        match rRes with | .ok sig => some sig | .error _ => none
      let errs2 := errs1 ++
        (match rRes with
         | .ok _ => []
         | .error e => ["Rust function " ++ config.function_name ++ " not found: " ++ e])
      let errs3 :=
        match c_sig, rust_sig with
        | some c, some r =>
          if c.params.length ≠ r.params.length then
            errs2 ++ ["Parameter count mismatch"]
          else errs2
        | _, _ => errs2
      .ok { success := errs3.isEmpty, c_signature := c_sig
            rust_signature := rust_sig, errors := errs3 }

/-- Whether an Except value is a success. -/
def isOkE {α : Type} (x : Except String α) : Bool :=
  match x with
  | .ok _ => true
  | .error _ => false

end EqChecker

namespace SpecModel

open EqChecker

/-- Modelled from the spec: the operators of the symbolic value model of
section 4.1 (arithmetic, comparison, boolean connectives). -/
inductive BinOp
  | add
  | sub
  | mul
  | div
  | mod
  | eq
  | lt
  | le
  | gt
  | ge
  | band
  | bor
deriving DecidableEq, Repr

/-- Modelled from the spec: symbolic expressions over named input variables,
integer and string literals, with binary operators and negation.  Nothing
under src/ implements this model (the source keeps symbolic payloads as
uninterpreted strings), so it is built from the words of section 4.1. -/
inductive Expr
  | lit (n : Int)
  | strlit (s : String)
  | var (x : String)
  | binop (op : BinOp) (a b : Expr)
  | enot (e : Expr)
deriving DecidableEq, Repr

/-- Modelled from the spec: a concrete value a symbolic expression can
take under a total assignment of integers to the input variables. -/
inductive Val
  | vint (n : Int)
  | vstr (s : String)
  | vbool (b : Bool)
deriving DecidableEq, Repr

/-- Modelled from the spec: the failure modes of substitute
(section 4.1): UnboundVariable for an incomplete model, DivisionByZero
and Overflow for those evaluation conditions; TypeMismatch covers
ill-sorted combinations the spec leaves unspecified. -/
inductive SubstErr
  | UnboundVariable
  | DivisionByZero
  | Overflow
  | TypeMismatch
deriving DecidableEq, Repr

/-- Smallest i64 value. -/
def i64Min : Int := -(2 ^ 63)

/-- Largest i64 value. -/
def i64Max : Int := 2 ^ 63 - 1

/-- Whether an integer fits in i64. -/
def inI64 (n : Int) : Bool :=
  decide (i64Min ≤ n) && decide (n ≤ i64Max)

/-- Wrap an arithmetic result, reporting Overflow outside the i64 range. -/
def intResult (n : Int) : Except SubstErr Val :=
  if inI64 n then .ok (.vint n) else .error .Overflow

/-- Modelled from the spec: apply one operator to two concrete values.
Division and modulo truncate toward zero as in Rust, report
DivisionByZero on a zero divisor and Overflow when a result leaves the
i64 range. -/
def applyOp (op : BinOp) (va vb : Val) : Except SubstErr Val :=
  match op, va, vb with
  | .add, .vint x, .vint y => intResult (x + y)
  | .sub, .vint x, .vint y => intResult (x - y)
  | .mul, .vint x, .vint y => intResult (x * y)
  | .div, .vint x, .vint y =>
    if y = 0 then .error .DivisionByZero else intResult (Int.tdiv x y)
  | .mod, .vint x, .vint y =>
    if y = 0 then .error .DivisionByZero else intResult (Int.tmod x y)
  | .eq, .vint x, .vint y => .ok (.vbool (decide (x = y)))
  | .eq, .vstr x, .vstr y => .ok (.vbool (decide (x = y)))
  | .eq, .vbool x, .vbool y => .ok (.vbool (x == y))
  | .lt, .vint x, .vint y => .ok (.vbool (decide (x < y)))
  | .le, .vint x, .vint y => .ok (.vbool (decide (x ≤ y)))
  | .gt, .vint x, .vint y => .ok (.vbool (decide (y < x)))
  | .ge, .vint x, .vint y => .ok (.vbool (decide (y ≤ x)))
  | .band, .vbool x, .vbool y => .ok (.vbool (x && y))
  | .bor, .vbool x, .vbool y => .ok (.vbool (x || y))
  | _, _, _ => .error .TypeMismatch

/-- A model: an assignment of integers to input variable names. -/
abbrev Model := List (String × Int)

/-- Evaluate an expression under a model, left subterm first. -/
def evalE : Expr → Model → Except SubstErr Val
  | .lit n, _ => .ok (.vint n)
  | .strlit s, _ => .ok (.vstr s)
  | .var x, m =>
    match m.lookup x with
    | some v => .ok (.vint v)
    | none => .error .UnboundVariable
  | .enot e, m =>
    match evalE e m with
    | .ok (.vbool b) => .ok (.vbool (!b))
    | .ok _ => .error .TypeMismatch
    | .error er => .error er
  | .binop op a b, m =>
    match evalE a m with
    | .error er => .error er
    | .ok va =>
      match evalE b m with
      | .error er => .error er
      | .ok vb => applyOp op va vb

/-- The free input variables of an expression. -/
def freeVars : Expr → List String
  | .lit _ => []
  | .strlit _ => []
  | .var x => [x]
  | .binop _ a b => freeVars a ++ freeVars b
  | .enot e => freeVars e

/-- Modelled from the spec: substitute(expr, model) of section 4.1.  It
evaluates the expression under a total assignment to every free input
variable, failing with UnboundVariable when the model misses one, and
with DivisionByZero or Overflow when evaluation hits those conditions. -/
def substitute (e : Expr) (m : Model) : Except SubstErr Val :=
  if (freeVars e).all (fun v => (m.lookup v).isSome) then evalE e m
  else .error .UnboundVariable

/-- Render a concrete value as the snapshot string. -/
def renderVal : Val → String
  | .vint n => toString n
  | .vstr s => s
  | .vbool b => toString b

/-- Modelled from the spec: a DivisionByZero or Overflow outcome of
substitution is folded into the behavior snapshot as a distinguished
value; an UnboundVariable (a model-incompleteness contract violation)
still surfaces as an error. -/
def foldOutcome : Except SubstErr Val → Except SubstErr String
  | .ok v => .ok (renderVal v)
  | .error .DivisionByZero => .ok "DivisionByZero"
  | .error .Overflow => .ok "Overflow"
  | .error e => .error e

/-- Modelled from the spec: a spec-level path summary, with the channels
that the BehaviorSnapshot type of src/types/mod.rs records (return value,
stdout, stderr, global writes). -/
structure SPathSummary where
  pc : List Expr
  ret : Expr
  stdout_log : List Expr
  stderr_log : List Expr
  global_writes : List (String × Expr)
deriving DecidableEq, Repr

/-- Modelled from the spec: the counterexample builder of section 4.6
replays one path summary under a concrete model, producing a
BehaviorSnapshot; DivisionByZero and Overflow become distinguished
values, an incomplete model is surfaced as an error. -/
def mkSnapshot (ps : SPathSummary) (m : Model) :
    Except SubstErr BehaviorSnapshot := do
  let r ← foldOutcome (substitute ps.ret m)
  let outs ← ps.stdout_log.mapM (fun e => foldOutcome (substitute e m))
  let errs ← ps.stderr_log.mapM (fun e => foldOutcome (substitute e m))
  let globs ← ps.global_writes.mapM
    (fun p => do
      let v ← foldOutcome (substitute p.2 m)
      pure (p.1, v))
  pure { return_value := r, stdout := outs, stderr := errs, globals := globs }

/-- All assignments of integers inside the declared bound box, one value
per declared InputBound, in declaration order. -/
def allModels : List InputBound → List Model
  | [] => [[]]
  | b :: rest =>
    (List.range (b.max - b.min + 1).toNat).flatMap
      (fun k => (allModels rest).map (fun m => (b.name, b.min + k) :: m))

/-- Whether one path-condition clause holds under a model. -/
def holdsClause (m : Model) (e : Expr) : Bool :=
  match substitute e m with
  | .ok (.vbool true) => true
  | _ => false

/-- Whether a whole path condition (a conjunction of clauses) holds. -/
def holdsAll (m : Model) (pc : List Expr) : Bool :=
  pc.all (holdsClause m)

/-- Modelled from the spec: coverage of section 4.2.  The path-condition
sets of one program cover the declared bounds when every model inside
the box satisfies at least one path condition. -/
def coverageComplete (bounds : List InputBound) (pcs : List (List Expr)) : Bool :=
  (allModels bounds).all (fun m => pcs.any (fun pc => holdsAll m pc))

/-- Whether the two replayed behavior snapshots differ under a model. -/
def snapshotsDiffer (ps1 ps2 : SPathSummary) (m : Model) : Bool :=
  match mkSnapshot ps1 m, mkSnapshot ps2 m with
  | .ok s1, .ok s2 => decide (s1 ≠ s2)
  | _, _ => false

/-- Modelled from the spec: the divergence query of section 4.3 for one
region, decided by enumeration of the bounded box: satisfiable when some
model inside the bounds satisfies both path conditions and the two
behaviors differ on some channel. -/
def divergenceSat (bounds : List InputBound) (ps1 ps2 : SPathSummary) : Bool :=
  (allModels bounds).any
    (fun m => holdsAll m ps1.pc && holdsAll m ps2.pc && snapshotsDiffer ps1 ps2 m)

/-- Modelled from the spec: the disjointness check of section 4.2.  Two
path conditions of the same program overlap when some model inside the
bounds satisfies both. -/
def overlapSat (bounds : List InputBound) (pc1 pc2 : List Expr) : Bool :=
  (allModels bounds).any (fun m => holdsAll m pc1 && holdsAll m pc2)

/-- Display form of an operator, matching the strings the source stores. -/
def BinOp.symbol (op : BinOp) : String :=
  match op with
  | .bor => "||"
  | .band => "&&"
  | .ge => ">="
  | .gt => ">"
  | .le => "<="
  | .lt => "<"
  | .eq => "=="
  | .mod => "%"
  | .div => "/"
  | .mul => "*"
  | .sub => "-"
  | .add => "+"

/-- Render a spec-level expression as the kind of string the source-level
PathSummary stores in its uninterpreted fields.  This links spec-level
summaries to the string payloads the code carries. -/
def render : Expr → String
  | .lit n => toString n
  | .strlit s => s
  | .var x => x
  | .enot e => "!(" ++ render e ++ ")"
  | .binop op a b => "(" ++ render a ++ " " ++ op.symbol ++ " " ++ render b ++ ")"

/-! Normalization (section 4.1 of the spec): flatten nested associative
operators, fold constant operands, and sort commutative operand lists by
a total order on sub-expression hashes.  Constant folding of the
commutative arithmetic operators combines all literal operands of a
flattened operand list; folding works in unbounded integers, since the
spec fixes no overflow behavior for normalization itself. -/

/-- The associative-commutative operators whose operand lists are
flattened and sorted. -/
def isAC : BinOp → Bool
  | .add => true
  | .mul => true
  | .band => true
  | .bor => true
  | _ => false

/-- Whether an expression is rooted in the given operator. -/
def acRoot (op : BinOp) : Expr → Bool
  | .binop o _ _ => decide (o = op)
  | _ => false

/-- Flatten the nested operand tree of an associative operator into the
list of its maximal non-op-rooted operands. -/
def flattenOp (op : BinOp) : Expr → List Expr
  | .binop o a b =>
    if o = op then flattenOp op a ++ flattenOp op b
    else [.binop o a b]
  | e => [e]

/-- Rebuild a flattened operand list into a right-nested operator tree. -/
def rebuild (op : BinOp) : List Expr → Expr
  | [] => .lit 0
  | [e] => e
  | e :: f :: rest => .binop op e (rebuild op (f :: rest))

/-- Position of an operator in an arbitrary enumeration, for hashing. -/
def BinOp.idx : BinOp → Nat
  | .add => 0
  | .sub => 1
  | .mul => 2
  | .div => 3
  | .mod => 4
  | .eq => 5
  | .lt => 6
  | .le => 7
  | .gt => 8
  | .ge => 9
  | .band => 10
  | .bor => 11

/-- Cantor pairing, used to mix child hashes. -/
def natMix (a b : Nat) : Nat := (a + b) * (a + b + 1) / 2 + b

/-- Hash of a string, for the sub-expression hash. -/
def strKey (s : String) : Nat :=
  s.toList.foldl (fun h c => h * 256 + c.toNat) 1

/-- Hash of an integer literal. -/
def intKey (n : Int) : Nat :=
  if 0 ≤ n then 2 * n.toNat else 2 * (-n).toNat + 1

/-- The sub-expression hash by which commutative operand lists are
sorted. -/
def ekey : Expr → Nat
  | .lit n => 8 * intKey n + 1
  | .strlit s => 8 * strKey s + 2
  | .var x => 8 * strKey x + 3
  | .enot e => 8 * ekey e + 4
  | .binop op a b => 8 * natMix op.idx (natMix (ekey a) (ekey b)) + 5

/-- The total preorder on expressions induced by the hash. -/
def keyRel (a b : Expr) : Prop := ekey a ≤ ekey b

instance : DecidableRel keyRel := fun a b => Nat.decLe (ekey a) (ekey b)

instance : IsTotal Expr keyRel := ⟨fun a b => Nat.le_total (ekey a) (ekey b)⟩

instance : IsTrans Expr keyRel := ⟨fun _ _ _ => Nat.le_trans⟩

/-- Sort an operand list by the sub-expression hash order. -/
def sortK (l : List Expr) : List Expr := l.insertionSort keyRel

/-- Whether an expression is an integer literal. -/
def isLit : Expr → Bool
  | .lit _ => true
  | _ => false

/-- The integer literals occurring in an operand list. -/
def litsOf (l : List Expr) : List Int :=
  l.filterMap (fun e => match e with | .lit n => some n | _ => none)

/-- Combine all literal operands of one commutative arithmetic operator. -/
def combineLits (op : BinOp) (ns : List Int) : Int :=
  match op with
  | .mul => ns.foldl (fun a b => a * b) 1
  | _ => ns.foldl (fun a b => a + b) 0

/-- Fold the constant operands of a flattened operand list: when an
additive or multiplicative operand list carries at least two literals,
they are combined into a single literal operand. -/
def foldLits (op : BinOp) (l : List Expr) : List Expr :=
  if op = .add ∨ op = .mul then
    if 2 ≤ (litsOf l).length then
      .lit (combineLits op (litsOf l)) :: l.filter (fun e => !isLit e)
    else l
  else l

/-- Fold a non-associative arithmetic operator applied to two literals
(subtraction always, division and modulo only when defined). -/
def arithFold (op : BinOp) (a b : Expr) : Option Expr :=
  match op, a, b with
  | .sub, .lit x, .lit y => some (.lit (x - y))
  | .div, .lit x, .lit y => if y = 0 then none else some (.lit (Int.tdiv x y))
  | .mod, .lit x, .lit y => if y = 0 then none else some (.lit (Int.tmod x y))
  | _, _, _ => none

/-- Modelled from the spec: normalize(expr) of section 4.1.  Children are
normalized first; associative-commutative operand lists are flattened,
constant-folded and sorted by the hash order, then rebuilt; the
commutative comparison has its two operands ordered by hash; constant
non-associative arithmetic is folded. -/
def normalize : Expr → Expr
  | .lit n => .lit n
  | .strlit s => .strlit s
  | .var x => .var x
  | .enot e => .enot (normalize e)
  | .binop op a b =>
    if isAC op then
      rebuild op (sortK (foldLits op
        (flattenOp op (normalize a) ++ flattenOp op (normalize b))))
    else if op = .eq then
      if ekey (normalize b) < ekey (normalize a) then
        .binop .eq (normalize b) (normalize a)
      else
        .binop .eq (normalize a) (normalize b)
    else
      match arithFold op (normalize a) (normalize b) with
      | some e2 => e2
      | none => .binop op (normalize a) (normalize b)

/-- The canonical forms: the expressions normalize maps onto and leaves
fixed.  An associative-commutative node is the right-nested rebuild of an
operand list of at least two maximal non-op-rooted, canonical operands,
sorted by hash and carrying no foldable constant pair. -/
inductive IsNormal : Expr → Prop
  | lit (n : Int) : IsNormal (.lit n)
  | strlit (s : String) : IsNormal (.strlit s)
  | var (x : String) : IsNormal (.var x)
  | enot (e : Expr) : IsNormal e → IsNormal (.enot e)
  | plain (op : BinOp) (a b : Expr) :
      isAC op = false → op ≠ .eq → arithFold op a b = none →
      IsNormal a → IsNormal b → IsNormal (.binop op a b)
  | eqswap (a b : Expr) :
      IsNormal a → IsNormal b → ekey a ≤ ekey b →
      IsNormal (.binop .eq a b)
  | acnode (op : BinOp) (x y : Expr) (rest : List Expr) :
      isAC op = true →
      (∀ e ∈ x :: y :: rest, IsNormal e) →
      (∀ e ∈ x :: y :: rest, acRoot op e = false) →
      List.Sorted keyRel (x :: y :: rest) →
      foldLits op (x :: y :: rest) = x :: y :: rest →
      IsNormal (.binop op x (rebuild op (y :: rest)))

end SpecModel

/-! Concrete fixtures used by the per-claim theorems below.  The string
payloads of the source-level summaries are the renderings of the
spec-level expressions next to them. -/

namespace Fix

open EqChecker SpecModel

/-- Bound box x in 0..10. -/
def boundsX10 : List InputBound := [⟨"x", 0, 10⟩]

/-- Bound box x in 0..100. -/
def boundsX100 : List InputBound := [⟨"x", 0, 100⟩]

/-- A configuration over the x in 0..10 box. -/
def cfgX10 : AnalysisConfig :=
  ⟨"a.c", "b.rs", "compute", boundsX10, 100, 60⟩

/-- The same configuration with path budget 0. -/
def cfgBudget0 : AnalysisConfig :=
  ⟨"a.c", "b.rs", "compute", boundsX10, 0, 60⟩

/-- A configuration over the x in 0..100 box. -/
def cfgX100 : AnalysisConfig :=
  ⟨"a.c", "b.rs", "compute", boundsX100, 100, 60⟩

/-- Spec-level path: condition x > 5, returns x + 1. -/
def specPathA1 : SPathSummary :=
  ⟨[.binop .gt (.var "x") (.lit 5)], .binop .add (.var "x") (.lit 1), [], [], []⟩

/-- Spec-level path: condition x <= 5, returns x. -/
def specPathA2 : SPathSummary :=
  ⟨[.binop .le (.var "x") (.lit 5)], .var "x", [], [], []⟩

/-- Spec-level path: condition x >= 0, returns x. -/
def specPathB : SPathSummary :=
  ⟨[.binop .ge (.var "x") (.lit 0)], .var "x", [], [], []⟩

/-- Spec-level trivial path: condition empty (true), returns x. -/
def specTriv : SPathSummary := ⟨[], .var "x", [], [], []⟩

/-- Source-level summaries of the section 8 scenario: program A has paths
x > 5 -> x + 1 and x <= 5 -> x, program B has path x >= 0 -> x. -/
def sumsDiverge : SymbolicSummaries :=
  ⟨[⟨"C-1", .C, specPathA1.pc.map render, render specPathA1.ret, [], [], [], []⟩,
    ⟨"C-2", .C, specPathA2.pc.map render, render specPathA2.ret, [], [], [], []⟩],
   [⟨"R-1", .Rust, specPathB.pc.map render, render specPathB.ret, [], [], [], []⟩]⟩

/-- Source-level summaries of two identical single-path programs. -/
def sumsSame : SymbolicSummaries :=
  ⟨[⟨"C-1", .C, [], render specTriv.ret, [], [], [], []⟩],
   [⟨"R-1", .Rust, [], render specTriv.ret, [], [], [], []⟩]⟩

/-- Spec-level path condition x <= 50, covering only half of 0..100. -/
def halfPc : List Expr := [.binop .le (.var "x") (.lit 50)]

/-- Source-level summaries where the C side covers only x <= 50. -/
def sumsHalf : SymbolicSummaries :=
  ⟨[⟨"C-1", .C, halfPc.map render, "x", [], [], [], []⟩],
   [⟨"R-1", .Rust, [], "x", [], [], [], []⟩]⟩

/-- Spec-level path condition x > 0. -/
def pcPos : List Expr := [.binop .gt (.var "x") (.lit 0)]

/-- Spec-level path condition x > 1, overlapping x > 0 inside 0..10. -/
def pcGt1 : List Expr := [.binop .gt (.var "x") (.lit 1)]

/-- Source-level summaries whose two C paths overlap inside the bounds. -/
def sumsOverlap : SymbolicSummaries :=
  ⟨[⟨"C-1", .C, pcPos.map render, "x", [], [], [], []⟩,
    ⟨"C-2", .C, pcGt1.map render, "0", [], [], [], []⟩],
   [⟨"R-1", .Rust, [], "x", [], [], [], []⟩]⟩

/-- The fixed result the skeleton check returns. -/
def stubResult : EquivalenceResult :=
  ⟨.Unknown, 0, none, 0⟩

/-- The min <= max and name-uniqueness invariant the specification states
for the bounds of one configuration. -/
def BoundsInvariant (bs : List InputBound) : Prop :=
  (∀ b ∈ bs, b.min ≤ b.max) ∧
  (bs.map (fun b => b.name)).Pairwise (fun a c => a ≠ c)

/-- A validation oracle in which no file exists. -/
def envNoFiles : ValEnv :=
  ⟨fun _ => false, fun _ => .ok (), fun _ => .ok (),
   fun f _ => .error f, fun f _ => .error f⟩

end Fix

/-! Per-claim theorems. -/

open EqChecker SpecModel Fix

/-- C3: for every AnalysisConfig and every pair of path-summary
collections, equivalence::check returns Ok of an EquivalenceResult with
verdict Unknown, paths_compared 0, counterexample None and time_taken 0.0,
independently of its inputs. -/
theorem c3_check_is_constant :
    ∀ (config : AnalysisConfig) (summaries : SymbolicSummaries),
      check config summaries = .ok stubResult :=
  fun _ _ => rfl

/-- C1: the claim that a satisfiable divergence query makes check return
NotEquivalent with a counterexample fails on the code.  On the section 8
scenario the spec-modelled divergence query is satisfiable with a genuine
behavioral difference (x = 6 gives return 7 versus 6), yet the skeleton
check returns Ok with verdict Unknown and no counterexample. -/
theorem c1_check_ignores_genuine_divergence :
    divergenceSat boundsX10 specPathA1 specPathB = true ∧
    mkSnapshot specPathA1 [("x", 6)] = .ok ⟨"7", [], [], []⟩ ∧
    mkSnapshot specPathB [("x", 6)] = .ok ⟨"6", [], [], []⟩ ∧
    check cfgX10 sumsDiverge = .ok stubResult ∧
    stubResult.verdict ≠ Verdict.NotEquivalent ∧
    stubResult.counterexample = none :=
  ⟨by decide, rfl, rfl, rfl, by decide, rfl⟩

/-- C2: the claim that all-Unsatisfiable regions with complete coverage
make check return Equivalent fails on the code.  For two identical
single-path programs over x in 0..10 coverage is complete and the
spec-modelled divergence query is Unsatisfiable, yet the skeleton check
returns Ok with verdict Unknown, not Equivalent. -/
theorem c2_check_never_reports_equivalent :
    coverageComplete boundsX10 [[]] = true ∧
    divergenceSat boundsX10 specTriv specTriv = false ∧
    check cfgX10 sumsSame = .ok stubResult ∧
    stubResult.verdict ≠ Verdict.Equivalent :=
  ⟨by decide, by decide, rfl, by decide⟩

/-- C4: with max_paths 0 the skeleton check does return Ok with verdict
Unknown and paths_compared 0, but it returns the same fixed result for
every budget (the budget is never consulted) and neither Verdict nor
EquivalenceResult can carry the PathBudgetExceeded reason the claim
names. -/
theorem c4_budget_zero_gives_bare_unknown :
    check cfgBudget0 sumsSame = .ok stubResult ∧
    stubResult.verdict = Verdict.Unknown ∧
    stubResult.paths_compared = 0 ∧
    check cfgBudget0 sumsSame = check cfgX10 sumsSame :=
  ⟨rfl, rfl, rfl, rfl⟩

/-- C5: whenever one side's path conditions leave the declared bounds
incompletely covered (stated through the spec-modelled coverage check on
the expressions whose renderings the code-level summaries carry), check
returns verdict Unknown and in particular never Equivalent.  The skeleton
returns Unknown for every input, so the claim holds. -/
theorem c5_incomplete_coverage_gives_unknown :
    ∀ (config : AnalysisConfig) (summaries : SymbolicSummaries)
      (cpcs : List (List Expr)),
      summaries.c_summaries.map (fun p => p.path_condition) =
        cpcs.map (fun pc => pc.map render) →
      coverageComplete config.bounds cpcs = false →
      check config summaries = .ok stubResult ∧
      stubResult.verdict = Verdict.Unknown ∧
      stubResult.verdict ≠ Verdict.Equivalent :=
  fun _ _ _ _ _ => ⟨rfl, rfl, by decide⟩

/-- C5 witness: the x <= 50 within 0..100 scenario instantiates the
coverage hypothesis concretely. -/
theorem c5_incomplete_coverage_gives_unknown_witness :
    check cfgX100 sumsHalf = .ok stubResult ∧
    stubResult.verdict = Verdict.Unknown ∧
    stubResult.verdict ≠ Verdict.Equivalent :=
  c5_incomplete_coverage_gives_unknown cfgX100 sumsHalf [halfPc] rfl (by decide)

/-- C6: the claim that overlapping same-program path conditions make the
run fail with a PathOverlapError fails on the code.  The two C paths
x > 0 and x > 1 overlap inside 0..10 under the spec-modelled disjointness
check, yet check succeeds with the fixed Unknown result, and the
CheckerError enum of the source has no path-overlap variant at all. -/
theorem c6_overlapping_paths_not_rejected :
    overlapSat boundsX10 pcPos pcGt1 = true ∧
    check cfgX10 sumsOverlap = .ok stubResult ∧
    isOkE (check cfgX10 sumsOverlap) = true :=
  ⟨by decide, rfl, rfl⟩

/-- Helper: a successful parse of a comma-part list parses each part in
order, with nothing checked across parts. -/
theorem parse_bounds_list_forall2 :
    ∀ (l : List String) (bs : List InputBound),
      parse_bounds_list l = .ok bs →
      List.Forall₂ (fun p b => parseBoundPart p = .ok b) l bs := by
  intro l
  induction l with
  | nil =>
    intro bs h
    cases h
    exact List.Forall₂.nil
  | cons p rest ih =>
    intro bs h
    unfold parse_bounds_list at h
    cases hp : parseBoundPart p with
    | error e => rw [hp] at h; cases h
    | ok b =>
      rw [hp] at h
      cases hr : parse_bounds_list rest with
      | error e => rw [hr] at h; cases h
      | ok bs2 =>
        rw [hr] at h
        cases h
        exact List.Forall₂.cons hp (ih bs2 hr)

/-- C9 (amended): every bounds list parse_bounds accepts consists of the
per-entry parses of the comma-separated parts, taken verbatim; no
min-max ordering or cross-entry name-uniqueness check is applied. -/
theorem c9_parse_bounds_entries_verbatim :
    ∀ (s : String) (bs : List InputBound),
      parse_bounds s = .ok bs →
      List.Forall₂ (fun p b => parseBoundPart p = .ok b) (splitStr ',' s) bs :=
  fun s bs h => parse_bounds_list_forall2 (splitStr ',' s) bs h

/-- C9 witness: the amended statement at the concrete bounds string. -/
theorem c9_parse_bounds_entries_verbatim_witness :
    List.Forall₂ (fun p b => parseBoundPart p = .ok b)
      (splitStr ',' "x:5:1,x:0:2") [⟨"x", 5, 1⟩, ⟨"x", 0, 2⟩] :=
  c9_parse_bounds_entries_verbatim "x:5:1,x:0:2" [⟨"x", 5, 1⟩, ⟨"x", 0, 2⟩] rfl

/-- C9 counterexample: parse_bounds accepts the string x:5:1,x:0:2, whose
first bound violates min <= max and whose names collide, so the claimed
invariant fails on an accepted configuration. -/
theorem c9_counterexample_invariant_not_enforced :
    parse_bounds "x:5:1,x:0:2" = .ok [⟨"x", 5, 1⟩, ⟨"x", 0, 2⟩] ∧
    ¬ BoundsInvariant [⟨"x", 5, 1⟩, ⟨"x", 0, 2⟩] :=
  ⟨rfl, fun hc =>
    absurd (hc.1 ⟨"x", 5, 1⟩ (List.mem_cons_self _ _)) (by decide)⟩

/-- C10: validate always returns Ok (all four failure families are
accumulated inside the returned ValidationResult), the success flag is
true exactly when the accumulated error list is empty, and a missing C
file makes validate return early with a result that mentions only the C
file and does not consult the Rust-side oracles. -/
theorem c10_validate_result_invariants :
    ∀ (env : ValEnv) (config : AnalysisConfig),
      isOkE (validate env config) = true ∧
      (∀ r, validate env config = .ok r → (r.success = true ↔ r.errors = [])) ∧
      (env.fileExists config.c_file = false →
        validate env config =
          .ok ⟨false, none, none, ["C file not found: " ++ config.c_file]⟩) := by
  intro env config
  refine ⟨?_, ?_, ?_⟩
  · unfold validate
    by_cases h1 : env.fileExists config.c_file = false
    · rw [if_pos h1]; rfl
    · rw [if_neg h1]
      by_cases h2 : env.fileExists config.rust_file = false
      · rw [if_pos h2]; rfl
      · rw [if_neg h2]
        dsimp only
        split
        · rfl
        · rfl
  · intro r h
    unfold validate at h
    by_cases h1 : env.fileExists config.c_file = false
    · rw [if_pos h1] at h
      cases h
      simp
    · rw [if_neg h1] at h
      by_cases h2 : env.fileExists config.rust_file = false
      · rw [if_pos h2] at h
        cases h
        simp
      · rw [if_neg h2] at h
        dsimp only at h
        split at h
        · cases h
          rename_i hcond
          simp only []
          constructor
          · intro hs
            exact absurd hs (by simp)
          · intro he
            rw [he] at hcond
            simp at hcond
        · cases h
          rename_i hcond
          exact List.isEmpty_iff
  · intro hfe
    unfold validate
    rw [if_pos hfe]

/-- C10 witness: the missing-C-file early return at a concrete oracle and
configuration. -/
theorem c10_validate_result_invariants_witness :
    isOkE (validate envNoFiles ⟨"a.c", "b.rs", "compute", [], 100, 60⟩) = true ∧
    validate envNoFiles ⟨"a.c", "b.rs", "compute", [], 100, 60⟩ =
      .ok ⟨false, none, none, ["C file not found: a.c"]⟩ :=
  ⟨(c10_validate_result_invariants envNoFiles ⟨"a.c", "b.rs", "compute", [], 100, 60⟩).1,
   (c10_validate_result_invariants envNoFiles ⟨"a.c", "b.rs", "compute", [], 100, 60⟩).2.2 rfl⟩

/-- Helper: a successful substitution means the free-variable check passed
and evaluation succeeded. -/
theorem substitute_ok_inv {e : Expr} {m : Model} {v : Val}
    (h : substitute e m = .ok v) :
    (freeVars e).all (fun x => (m.lookup x).isSome) = true ∧ evalE e m = .ok v := by
  unfold substitute at h
  split at h
  · exact ⟨by assumption, h⟩
  · cases h

/-- C7: substitute fails with UnboundVariable whenever the model omits a
free input variable; under defined arguments a zero divisor yields
DivisionByZero and an out-of-range sum yields Overflow; and both of the
latter are folded into the behavior snapshot as distinguished values
rather than aborting the snapshot construction. -/
theorem c7_substitute_error_reporting :
    (∀ (e : Expr) (m : Model),
      (∃ v ∈ freeVars e, m.lookup v = none) →
      substitute e m = .error .UnboundVariable) ∧
    (∀ (a b : Expr) (m : Model) (x : Int),
      substitute a m = .ok (.vint x) → substitute b m = .ok (.vint 0) →
      substitute (.binop .div a b) m = .error .DivisionByZero) ∧
    (∀ (a b : Expr) (m : Model) (x y : Int),
      substitute a m = .ok (.vint x) → substitute b m = .ok (.vint y) →
      inI64 (x + y) = false →
      substitute (.binop .add a b) m = .error .Overflow) ∧
    (∀ (e : Expr) (m : Model),
      substitute e m = .error .DivisionByZero →
      mkSnapshot ⟨[], e, [], [], []⟩ m = .ok ⟨"DivisionByZero", [], [], []⟩) ∧
    (∀ (e : Expr) (m : Model),
      substitute e m = .error .Overflow →
      mkSnapshot ⟨[], e, [], [], []⟩ m = .ok ⟨"Overflow", [], [], []⟩) := by
  refine ⟨?_, ?_, ?_, ?_, ?_⟩
  · rintro e m ⟨v, hv, hnone⟩
    unfold substitute
    rw [if_neg]
    intro hall
    rw [List.all_eq_true] at hall
    have hx := hall v hv
    rw [hnone] at hx
    simp at hx
  · intro a b m x ha hb
    obtain ⟨hca, hea⟩ := substitute_ok_inv ha
    obtain ⟨hcb, heb⟩ := substitute_ok_inv hb
    unfold substitute
    rw [if_pos]
    · simp [evalE, hea, heb, applyOp]
    · simp [freeVars, List.all_append, hca, hcb]
  · intro a b m x y ha hb hov
    obtain ⟨hca, hea⟩ := substitute_ok_inv ha
    obtain ⟨hcb, heb⟩ := substitute_ok_inv hb
    unfold substitute
    rw [if_pos]
    · simp [evalE, hea, heb, applyOp, intResult, hov]
    · simp [freeVars, List.all_append, hca, hcb]
  · intro e m h
    unfold mkSnapshot
    dsimp only
    rw [h]
    rfl
  · intro e m h
    unfold mkSnapshot
    dsimp only
    rw [h]
    rfl

/-- C7 witness: the three failure modes and both foldings at concrete
expressions and models. -/
theorem c7_substitute_error_reporting_witness :
    substitute (.var "x") [] = .error .UnboundVariable ∧
    substitute (.binop .div (.lit 7) (.lit 0)) [] = .error .DivisionByZero ∧
    substitute (.binop .add (.lit i64Max) (.lit 1)) [] = .error .Overflow ∧
    mkSnapshot ⟨[], .binop .div (.lit 7) (.lit 0), [], [], []⟩ [] =
      .ok ⟨"DivisionByZero", [], [], []⟩ ∧
    mkSnapshot ⟨[], .binop .add (.lit i64Max) (.lit 1), [], [], []⟩ [] =
      .ok ⟨"Overflow", [], [], []⟩ :=
  ⟨c7_substitute_error_reporting.1 (.var "x") []
      ⟨"x", List.mem_cons_self _ _, rfl⟩,
   c7_substitute_error_reporting.2.1 (.lit 7) (.lit 0) [] 7 rfl rfl,
   c7_substitute_error_reporting.2.2.1 (.lit i64Max) (.lit 1) [] i64Max 1
     rfl rfl (by decide),
   c7_substitute_error_reporting.2.2.2.1 (.binop .div (.lit 7) (.lit 0)) []
     (c7_substitute_error_reporting.2.1 (.lit 7) (.lit 0) [] 7 rfl rfl),
   c7_substitute_error_reporting.2.2.2.2 (.binop .add (.lit i64Max) (.lit 1)) []
     (c7_substitute_error_reporting.2.2.1 (.lit i64Max) (.lit 1) [] i64Max 1
       rfl rfl (by decide))⟩

/-! Lemmas about the normalization pipeline, leading to idempotence. -/

/-- Helper: flattening never yields the empty operand list. -/
theorem flattenOp_ne_nil (op : BinOp) : ∀ e, flattenOp op e ≠ [] := by
  intro e
  induction e with
  | lit n => simp [flattenOp]
  | strlit s => simp [flattenOp]
  | var x => simp [flattenOp]
  | enot e ih => simp [flattenOp]
  | binop o a b iha ihb =>
    unfold flattenOp
    by_cases h : o = op
    · rw [if_pos h]
      intro hh
      exact iha (List.append_eq_nil.mp hh).1
    · rw [if_neg h]
      simp

/-- Helper: a non-op-rooted expression flattens to itself alone. -/
theorem flattenOp_not_root {op : BinOp} {e : Expr} (h : acRoot op e = false) :
    flattenOp op e = [e] := by
  cases e with
  | binop o a b =>
    unfold acRoot at h
    rw [decide_eq_false_iff_not] at h
    unfold flattenOp
    rw [if_neg h]
  | lit n => rfl
  | strlit s => rfl
  | var x => rfl
  | enot e2 => rfl

/-- Helper: flattening a rebuilt list of non-op-rooted operands recovers
the list. -/
theorem flattenOp_rebuild {op : BinOp} :
    ∀ l : List Expr, l ≠ [] → (∀ x ∈ l, acRoot op x = false) →
      flattenOp op (rebuild op l) = l := by
  intro l
  induction l with
  | nil => intro h _; exact absurd rfl h
  | cons x t ih =>
    intro _ hr
    cases t with
    | nil => exact flattenOp_not_root (hr x (List.mem_cons_self _ _))
    | cons y rest =>
      show flattenOp op (.binop op x (rebuild op (y :: rest))) = x :: y :: rest
      unfold flattenOp
      rw [if_pos rfl]
      rw [flattenOp_not_root (hr x (List.mem_cons_self _ _))]
      rw [ih (by simp) (fun z hz => hr z (List.mem_cons_of_mem _ hz))]
      rfl

/-- Helper: filtering out the literals leaves no literals. -/
theorem litsOf_filter_out (l : List Expr) :
    litsOf (l.filter (fun e => !isLit e)) = [] := by
  induction l with
  | nil => rfl
  | cons x t ih =>
    cases x <;> simp [List.filter_cons, isLit, litsOf, List.filterMap_cons] at ih ⊢ <;>
      exact ih

/-- Helper: a list with fewer than two literal operands folds to itself. -/
theorem foldLits_of_few {op : BinOp} {l : List Expr}
    (h : (litsOf l).length < 2) : foldLits op l = l := by
  unfold foldLits
  split
  · rw [if_neg (by omega)]
  · rfl

/-- Helper: constant folding of an operand list is idempotent. -/
theorem foldLits_idem (op : BinOp) (l : List Expr) :
    foldLits op (foldLits op l) = foldLits op l := by
  by_cases hop : op = .add ∨ op = .mul
  · by_cases hlen : 2 ≤ (litsOf l).length
    · have hout : foldLits op l =
          .lit (combineLits op (litsOf l)) :: l.filter (fun e => !isLit e) := by
        unfold foldLits
        rw [if_pos hop, if_pos hlen]
      rw [hout]
      apply foldLits_of_few
      show (litsOf (Expr.lit (combineLits op (litsOf l)) ::
        l.filter (fun e => !isLit e))).length < 2
      rw [show litsOf (Expr.lit (combineLits op (litsOf l)) ::
            l.filter (fun e => !isLit e)) =
          combineLits op (litsOf l) :: litsOf (l.filter (fun e => !isLit e))
        from rfl]
      rw [litsOf_filter_out]
      simp
    · have hfew : foldLits op l = l := foldLits_of_few (by omega)
      rw [hfew]
      exact hfew
  · unfold foldLits
    rw [if_neg hop, if_neg hop]

/-- Helper: folding only introduces literals or keeps existing operands. -/
theorem foldLits_mem {op : BinOp} {l : List Expr} {x : Expr}
    (h : x ∈ foldLits op l) : x ∈ l ∨ ∃ n, x = Expr.lit n := by
  unfold foldLits at h
  split at h
  · split at h
    · cases h with
      | head => exact Or.inr ⟨_, rfl⟩
      | tail _ hm => exact Or.inl (List.mem_of_mem_filter hm)
    · exact Or.inl h
  · exact Or.inl h

/-- Helper: folding a nonempty operand list yields a nonempty list. -/
theorem foldLits_ne_nil {op : BinOp} {l : List Expr} (h : l ≠ []) :
    foldLits op l ≠ [] := by
  unfold foldLits
  split
  · split
    · simp
    · exact h
  · exact h

/-- Helper: a list without literal operands has an empty literal list. -/
theorem litsOf_eq_nil_of_nolits {t : List Expr}
    (h : ∀ a ∈ t, isLit a = false) : litsOf t = [] := by
  induction t with
  | nil => rfl
  | cons a r ih =>
    have ha := h a (List.mem_cons_self _ _)
    cases a with
    | lit n => simp [isLit] at ha
    | strlit s => exact ih (fun z hz => h z (List.mem_cons_of_mem _ hz))
    | var x => exact ih (fun z hz => h z (List.mem_cons_of_mem _ hz))
    | binop o a2 b2 => exact ih (fun z hz => h z (List.mem_cons_of_mem _ hz))
    | enot e2 => exact ih (fun z hz => h z (List.mem_cons_of_mem _ hz))

/-- Helper: if consing a head onto a tail is fold-fixed, so is the tail. -/
theorem foldLits_tail {op : BinOp} {x : Expr} {t : List Expr}
    (h : foldLits op (x :: t) = x :: t) : foldLits op t = t := by
  by_cases hop : op = .add ∨ op = .mul
  · by_cases hlen : 2 ≤ (litsOf (x :: t)).length
    · exfalso
      unfold foldLits at h
      rw [if_pos hop, if_pos hlen] at h
      injection h with hx hfil
      rw [← hx] at hfil
      rw [show (Expr.lit (combineLits op (litsOf (x :: t))) :: t).filter
            (fun e => !isLit e) = t.filter (fun e => !isLit e)
          from by simp [List.filter_cons, isLit]] at hfil
      have hnol : ∀ a ∈ t, isLit a = false := by
        intro a ha
        have := List.filter_eq_self.mp hfil a ha
        simpa using this
      have hnil : litsOf t = [] := litsOf_eq_nil_of_nolits hnol
      have hx2 : litsOf (x :: t) =
          combineLits op (litsOf (x :: t)) :: litsOf t := by
        conv_lhs => rw [← hx]
        rfl
      rw [hnil] at hx2
      rw [hx2] at hlen
      simp at hlen
    · apply foldLits_of_few
      have hle : (litsOf t).length ≤ (litsOf (x :: t)).length := by
        cases x <;> simp [litsOf, List.filterMap_cons]
      omega
  · unfold foldLits
    rw [if_neg hop]

/-- Helper: a fold-fixed additive or multiplicative operand list has
fewer than two literals. -/
theorem foldLits_fix_lits {op : BinOp} {q : List Expr}
    (hop : op = .add ∨ op = .mul) (hq : foldLits op q = q) :
    (litsOf q).length < 2 := by
  by_contra hc
  push_neg at hc
  unfold foldLits at hq
  rw [if_pos hop, if_pos (by omega)] at hq
  have hone : litsOf q = [combineLits op (litsOf q)] := by
    conv_lhs => rw [← hq]
    rw [show litsOf (Expr.lit (combineLits op (litsOf q)) ::
          q.filter (fun e => !isLit e)) =
        combineLits op (litsOf q) :: litsOf (q.filter (fun e => !isLit e))
      from rfl]
    rw [litsOf_filter_out]
  rw [hone] at hc
  simp at hc

/-- Helper: fold-fixedness is invariant under permutation. -/
theorem foldLits_fix_of_perm {op : BinOp} {q r : List Expr}
    (hfix : foldLits op q = q) (hp : r.Perm q) : foldLits op r = r := by
  by_cases hop : op = .add ∨ op = .mul
  · apply foldLits_of_few
    have hlen : (litsOf r).length = (litsOf q).length := by
      unfold litsOf
      exact (List.Perm.filterMap _ hp).length_eq
    have hq := foldLits_fix_lits hop hfix
    omega
  · unfold foldLits
    rw [if_neg hop]

/-- Helper: sorting permutes the operand list. -/
theorem sortK_perm (l : List Expr) : (sortK l).Perm l :=
  List.perm_insertionSort keyRel l

/-- Helper: sorting sorts by the hash order. -/
theorem sortK_sorted (l : List Expr) : List.Sorted keyRel (sortK l) :=
  List.sorted_insertionSort keyRel l

/-- Helper: sorting a sorted list leaves it unchanged. -/
theorem sortK_of_sorted {l : List Expr} (h : List.Sorted keyRel l) :
    sortK l = l :=
  h.insertionSort_eq

/-- Helper: a nonempty list of canonical, non-op-rooted, hash-sorted,
fold-fixed operands rebuilds into a canonical expression. -/
theorem isNormal_rebuild {op : BinOp} {l : List Expr}
    (hac : isAC op = true) (hne : l ≠ [])
    (hn : ∀ x ∈ l, IsNormal x) (hr : ∀ x ∈ l, acRoot op x = false)
    (hs : List.Sorted keyRel l) (hf : foldLits op l = l) :
    IsNormal (rebuild op l) := by
  cases l with
  | nil => exact absurd rfl hne
  | cons x t =>
    cases t with
    | nil => exact hn x (List.mem_cons_self _ _)
    | cons y rest => exact IsNormal.acnode op x y rest hac hn hr hs hf

/-- Helper: every operand obtained by flattening a canonical expression
is canonical and not op-rooted. -/
theorem flattenOp_normal {op : BinOp} {c : Expr}
    (hac : isAC op = true) (h : IsNormal c) :
    ∀ x ∈ flattenOp op c, IsNormal x ∧ acRoot op x = false := by
  cases h with
  | lit n =>
    intro x hx
    rw [show flattenOp op (Expr.lit n) = [Expr.lit n] from rfl] at hx
    rw [List.mem_singleton] at hx
    subst hx
    exact ⟨IsNormal.lit n, rfl⟩
  | strlit s =>
    intro x hx
    rw [show flattenOp op (Expr.strlit s) = [Expr.strlit s] from rfl] at hx
    rw [List.mem_singleton] at hx
    subst hx
    exact ⟨IsNormal.strlit s, rfl⟩
  | var v =>
    intro x hx
    rw [show flattenOp op (Expr.var v) = [Expr.var v] from rfl] at hx
    rw [List.mem_singleton] at hx
    subst hx
    exact ⟨IsNormal.var v, rfl⟩
  | enot e he =>
    intro x hx
    rw [show flattenOp op (Expr.enot e) = [Expr.enot e] from rfl] at hx
    rw [List.mem_singleton] at hx
    subst hx
    exact ⟨IsNormal.enot e he, rfl⟩
  | plain op2 a b h1 h2 h3 h4 h5 =>
    intro x hx
    have hne2 : op2 ≠ op := by
      intro he
      rw [he, hac] at h1
      cases h1
    rw [flattenOp_not_root (show acRoot op (Expr.binop op2 a b) = false from
      by unfold acRoot; exact decide_eq_false hne2)] at hx
    rw [List.mem_singleton] at hx
    subst hx
    exact ⟨IsNormal.plain op2 a b h1 h2 h3 h4 h5,
      by unfold acRoot; exact decide_eq_false hne2⟩
  | eqswap a b h1 h2 h3 =>
    intro x hx
    have hne2 : BinOp.eq ≠ op := by
      intro he
      rw [← he] at hac
      cases hac
    rw [flattenOp_not_root (show acRoot op (Expr.binop .eq a b) = false from
      by unfold acRoot; exact decide_eq_false hne2)] at hx
    rw [List.mem_singleton] at hx
    subst hx
    exact ⟨IsNormal.eqswap a b h1 h2 h3,
      by unfold acRoot; exact decide_eq_false hne2⟩
  | acnode op2 x2 y rest h1 h2 h3 h4 h5 =>
    intro x hx
    by_cases he : op2 = op
    · subst he
      rw [show flattenOp op2 (Expr.binop op2 x2 (rebuild op2 (y :: rest))) =
            flattenOp op2 x2 ++ flattenOp op2 (rebuild op2 (y :: rest)) from
          by simp [flattenOp]] at hx
      rw [flattenOp_not_root (h3 x2 (List.mem_cons_self _ _))] at hx
      rw [flattenOp_rebuild (y :: rest) (by simp)
        (fun z hz => h3 z (List.mem_cons_of_mem _ hz))] at hx
      have hx2 : x ∈ x2 :: y :: rest := by
        rcases List.mem_append.mp hx with h | h
        · rw [List.mem_singleton] at h
          subst h
          exact List.mem_cons_self _ _
        · exact List.mem_cons_of_mem _ h
      exact ⟨h2 x hx2, h3 x hx2⟩
    · rw [flattenOp_not_root (show acRoot op
          (Expr.binop op2 x2 (rebuild op2 (y :: rest))) = false from
        by unfold acRoot; exact decide_eq_false he)] at hx
      rw [List.mem_singleton] at hx
      subst hx
      exact ⟨IsNormal.acnode op2 x2 y rest h1 h2 h3 h4 h5,
        by unfold acRoot; exact decide_eq_false he⟩

/-- Helper: non-associative constant folding only produces literals. -/
theorem arithFold_lit {op : BinOp} {a b e : Expr}
    (h : arithFold op a b = some e) : ∃ n, e = Expr.lit n := by
  unfold arithFold at h
  split at h
  · injection h with h2
    exact ⟨_, h2.symm⟩
  · split at h
    · cases h
    · injection h with h2
      exact ⟨_, h2.symm⟩
  · split at h
    · cases h
    · injection h with h2
      exact ⟨_, h2.symm⟩
  · cases h

namespace SpecModel

/-- Helper: the defining equation of normalize on an AC operator. -/
theorem normalize_binop_ac {op : BinOp} {a b : Expr} (hac : isAC op = true) :
    normalize (.binop op a b) =
      rebuild op (sortK (foldLits op
        (flattenOp op (normalize a) ++ flattenOp op (normalize b)))) := by
  simp only [normalize]
  rw [if_pos hac]

/-- Helper: the defining equation of normalize on the commutative
comparison. -/
theorem normalize_binop_eq (a b : Expr) :
    normalize (.binop .eq a b) =
      if ekey (normalize b) < ekey (normalize a) then
        Expr.binop .eq (normalize b) (normalize a)
      else
        Expr.binop .eq (normalize a) (normalize b) := by
  simp only [normalize]
  rw [if_neg (by decide : ¬(isAC BinOp.eq = true))]
  simp

/-- Helper: the defining equation of normalize on the remaining
operators. -/
theorem normalize_binop_other {op : BinOp} {a b : Expr}
    (hac : isAC op = false) (heq : op ≠ .eq) :
    normalize (.binop op a b) =
      match arithFold op (normalize a) (normalize b) with
      | some e2 => e2
      | none => Expr.binop op (normalize a) (normalize b) := by
  simp only [normalize]
  rw [if_neg (by simp [hac]), if_neg heq]

end SpecModel

namespace SpecModel

/-- Helper: normalize always produces a canonical expression. -/
theorem normalize_normal : ∀ e, IsNormal (normalize e) := by
  intro e
  induction e with
  | lit n => exact IsNormal.lit n
  | strlit s => exact IsNormal.strlit s
  | var x => exact IsNormal.var x
  | enot e ih => exact IsNormal.enot _ ih
  | binop op a b iha ihb =>
    by_cases hac : isAC op = true
    · rw [normalize_binop_ac hac]
      have hmem : ∀ x ∈ flattenOp op (normalize a) ++ flattenOp op (normalize b),
          IsNormal x ∧ acRoot op x = false := by
        intro x hx
        rcases List.mem_append.mp hx with h1 | h1
        · exact flattenOp_normal hac iha x h1
        · exact flattenOp_normal hac ihb x h1
      have hne : flattenOp op (normalize a) ++ flattenOp op (normalize b) ≠ [] := by
        intro hh
        exact flattenOp_ne_nil op (normalize a) (List.append_eq_nil.mp hh).1
      have hfne : foldLits op (flattenOp op (normalize a) ++
          flattenOp op (normalize b)) ≠ [] := foldLits_ne_nil hne
      have hfmem : ∀ x ∈ foldLits op (flattenOp op (normalize a) ++
          flattenOp op (normalize b)), IsNormal x ∧ acRoot op x = false := by
        intro x hx
        rcases foldLits_mem hx with h1 | ⟨n, rfl⟩
        · exact hmem x h1
        · exact ⟨IsNormal.lit n, rfl⟩
      have hperm := sortK_perm (foldLits op (flattenOp op (normalize a) ++
        flattenOp op (normalize b)))
      apply isNormal_rebuild hac
      · intro hh
        rw [hh] at hperm
        exact hfne (List.Perm.nil_eq hperm).symm
      · intro x hx
        exact (hfmem x (hperm.mem_iff.mp hx)).1
      · intro x hx
        exact (hfmem x (hperm.mem_iff.mp hx)).2
      · exact sortK_sorted _
      · exact foldLits_fix_of_perm (foldLits_idem op _) hperm
    · by_cases heq : op = .eq
      · subst heq
        rw [normalize_binop_eq]
        split
        · rename_i hlt
          exact IsNormal.eqswap _ _ ihb iha (Nat.le_of_lt hlt)
        · rename_i hlt
          exact IsNormal.eqswap _ _ iha ihb (Nat.le_of_not_lt hlt)
      · rw [normalize_binop_other (Bool.eq_false_iff.mpr hac) heq]
        cases hart : arithFold op (normalize a) (normalize b) with
        | some e2 =>
          simp only
          obtain ⟨n, rfl⟩ := arithFold_lit hart
          exact IsNormal.lit n
        | none =>
          simp only
          exact IsNormal.plain op _ _ (Bool.eq_false_iff.mpr hac) heq hart iha ihb

/-- Helper: normalize leaves canonical expressions unchanged. -/
theorem isNormal_fix : ∀ e, IsNormal e → normalize e = e := by
  intro e
  induction e with
  | lit n => intro _; rfl
  | strlit s => intro _; rfl
  | var x => intro _; rfl
  | enot e ih =>
    intro h
    cases h with
    | enot _ he =>
      show Expr.enot (normalize e) = Expr.enot e
      rw [ih he]
  | binop op a b iha ihb =>
    intro h
    cases h with
    | plain _ _ _ h1 h2 h3 h4 h5 =>
      rw [normalize_binop_other h1 h2]
      rw [iha h4, ihb h5]
      rw [h3]
    | eqswap _ _ hn1 hn2 hle =>
      rw [normalize_binop_eq]
      rw [iha hn1, ihb hn2]
      rw [if_neg (Nat.not_lt.mpr hle)]
    | acnode _ _ y rest h1 h2 h3 h4 h5 =>
      have hbN : IsNormal (rebuild op (y :: rest)) := by
        apply isNormal_rebuild h1 (by simp)
        · intro z hz
          exact h2 z (List.mem_cons_of_mem _ hz)
        · intro z hz
          exact h3 z (List.mem_cons_of_mem _ hz)
        · exact h4.of_cons
        · exact foldLits_tail h5
      rw [normalize_binop_ac h1]
      rw [iha (h2 a (List.mem_cons_self _ _)), ihb hbN]
      rw [flattenOp_not_root (h3 a (List.mem_cons_self _ _))]
      rw [flattenOp_rebuild (y :: rest) (by simp)
        (fun z hz => h3 z (List.mem_cons_of_mem _ hz))]
      rw [show ([a] ++ y :: rest : List Expr) = a :: y :: rest from rfl]
      rw [h5]
      rw [sortK_of_sorted h4]
      rfl

end SpecModel

/-- C8: the spec-modelled normalization of the symbolic value model is
idempotent: normalizing an already-normalized expression returns it
unchanged, for every expression. -/
theorem c8_normalize_idempotent :
    ∀ e : SpecModel.Expr,
      SpecModel.normalize (SpecModel.normalize e) = SpecModel.normalize e :=
  fun e => SpecModel.isNormal_fix (SpecModel.normalize e)
    (SpecModel.normalize_normal e)
